import Mathlib

/-!
# Verification of the vaccination-data CSV cleaning script

Shallow embedding of `src/dataprocessing/vaxdata.py`.

Python strings are modelled as `List Char`.  `str.strip` becomes `pyStrip`,
`str.split(sep)` (leftmost, non-overlapping occurrences of a non-empty
separator) becomes `pySplit`, `str.replace(c, "")` becomes a filter and
`str.replace(",", ".")` a character map.  `clean_row`'s three outcomes
(a raised `ValueError` carrying the observed column count, the `None`
skip signal, and a cleaned column list) become the inductive `CleanResult`.
The driver `main` becomes `pipelineAux` / `runPipeline`, abstracting file
I/O: the input is the decoded list of lines, the `print` diagnostic for a
malformed row is recorded as the pair (line index, observed column count),
and the written file is `outputDocument` (each buffered line followed by a
single newline character).
-/

set_option autoImplicit false

namespace Vaxdata

/-- Python whitespace (`str.strip` with no argument), ASCII range:
space, tab, newline, carriage return, vertical tab, form feed. -/
def isPySpace (c : Char) : Bool :=
  c = ' ' || c = '\t' || c = '\n' || c = '\x0d' || c = '\x0b' || c = '\x0c'

/-- `line.strip()`: remove leading and trailing whitespace. -/
def pyStrip (s : List Char) : List Char :=
  ((s.dropWhile isPySpace).reverse.dropWhile isPySpace).reverse

/-- If `sep` is a leading segment of `s`, return the rest of `s`
after it; otherwise `none`. -/
def dropSepHead : List Char → List Char → Option (List Char)
  | [], s => some s
  | _ :: _, [] => none
  | p :: ps, c :: cs => if c = p then dropSepHead ps cs else none

/-- Find the leftmost occurrence of `sep` in `s`: `some (pre, post)`
with `s = pre ++ sep ++ post` and no occurrence inside or starting
before the end of `pre`; `none` when `sep` does not occur. -/
def splitFirst (sep : List Char) : List Char → Option (List Char × List Char)
  | [] => none
  | a :: rest =>
    match dropSepHead sep (a :: rest) with
    | some post => some ([], post)
    | none =>
      match splitFirst sep rest with
      | none => none
      | some (pre, post) => some (a :: pre, post)

/-- Fuel-driven worker for `pySplit`: repeatedly cut at the leftmost
occurrence of the separator.  For a non-empty separator, each step
strictly shortens the string, so fuel `s.length` always suffices. -/
def pySplitFuel (sep : List Char) : Nat → List Char → List (List Char)
  | 0, s => [s]
  | fuel + 1, s =>
    match splitFirst sep s with
    | none => [s]
    | some (pre, post) => pre :: pySplitFuel sep fuel post

/-- `s.split(sep)` for a non-empty separator `sep` (Python raises on an
empty separator; all call sites in the script use `";"`). -/
def pySplit (sep s : List Char) : List (List Char) :=
  pySplitFuel sep s.length s

/-- `sep.join(cols)`. -/
def joinSep (sep : List Char) : List (List Char) → List Char
  | [] => []
  | [x] => x
  | x :: y :: xs => x ++ sep ++ joinSep sep (y :: xs)

/-- The "basic cleanup" applied to every column: remove every `"`, every
`*`, and every byte-order-mark character U+FEFF. -/
def cleanupField (c : List Char) : List Char :=
  ((c.filter (fun ch => ch ≠ '\"')).filter (fun ch => ch ≠ '*')).filter
    (fun ch => ch ≠ '\uFEFF')

/-- One character of `value.replace(",", ".")`. -/
def commaToDot (ch : Char) : Char :=
  if ch = ',' then '.' else ch

/-- The coverage-column repair applied to a non-empty cleaned last column:
append `0` when the value ends with `,`, then replace every `,` by `.`. -/
def fixCoverage (v : List Char) : List Char :=
  (if v.getLast? = some ',' then v ++ ['0'] else v).map commaToDot

/-- `cols[-1] = value` on a non-empty list (the only way the script
reaches it). -/
def setLast (l : List (List Char)) (v : List Char) : List (List Char) :=
  l.dropLast ++ [v]

/-- Outcome of `clean_row`: the raised `ValueError` (which carries the
observed column count in its message), the `None` skip signal, or the
cleaned column list. -/
inductive CleanResult where
  | malformed (count : Nat)
  | skip
  | ok (cols : List (List Char))
deriving DecidableEq, Repr

/-- `clean_row(line, sep, expected_columns)` from the script.  Splitting
never yields an empty list, so after the column-count guard the list is
non-empty whenever the guard can pass; `getLast?.getD []` models the
`cols[-1]` access at that point. -/
def clean_row (line sep : List Char) (expected_columns : Nat) : CleanResult :=
  let l := pyStrip line
  let cols := pySplit sep l
  if cols.length ≠ expected_columns then
    CleanResult.malformed cols.length
  else
    let cols := cols.map cleanupField
    let value := cols.getLast?.getD []
    if value = [] then
      CleanResult.skip
    else
      CleanResult.ok (setLast cols (fixCoverage value))

/-- The loop body of `main`, processing lines from index `n` on.  Returns
the buffered output lines and, for each malformed row, the diagnostic
pair (line index, observed column count) printed by the driver. -/
def pipelineAux (columnNames : List (List Char)) (sep : List Char) (expected : Nat) :
    Nat → List (List Char) → List (List Char) × List (Nat × Nat)
  | _, [] => ([], [])
  | n, line :: rest =>
    let r := pipelineAux columnNames sep expected (n + 1) rest
    if n = 0 then
      (joinSep sep columnNames :: r.1, r.2)
    else
      match clean_row line sep expected with
      | CleanResult.malformed k => (r.1, (n, k) :: r.2)
      | CleanResult.skip => r
      | CleanResult.ok cols => (joinSep sep cols :: r.1, r.2)

/-- `main`, abstracted over its input lines and configuration. -/
def runPipeline (columnNames : List (List Char)) (sep : List Char) (expected : Nat)
    (lines : List (List Char)) : List (List Char) × List (Nat × Nat) :=
  pipelineAux columnNames sep expected 0 lines

/-- The text written to the output file: every buffered line followed by
a single newline. -/
def outputDocument (columnNames : List (List Char)) (sep : List Char) (expected : Nat)
    (lines : List (List Char)) : List Char :=
  ((runPipeline columnNames sep expected lines).1.map (fun l => l ++ ['\n'])).flatten

/-- `COLUMN_NAMES` from the script's configuration block. -/
def COLUMN_NAMES : List (List Char) :=
  ["vaccine".toList, "region".toList, "year".toList, "coverage".toList]

/-- `SEPARATOR` from the script's configuration block. -/
def SEPARATOR : List Char := ";".toList

/-- `EXPECTED_COLUMNS` from the script's configuration block. -/
def EXPECTED_COLUMNS : Nat := 4

/-- The output line produced by a single data row, when it produces one:
`some` of the rejoined cleaned columns on success, `none` for a skipped
or malformed row. -/
def rowOutput (sep : List Char) (expected : Nat) (line : List Char) :
    Option (List Char) :=
  match clean_row line sep expected with
  | CleanResult.ok cols => some (joinSep sep cols)
  | _ => none

/-! ## Basic lemmas about the embedded primitives -/

/-- Splitting never produces the empty list of fields. -/
theorem pySplitFuel_ne_nil (sep : List Char) (fuel : Nat) (s : List Char) :
    pySplitFuel sep fuel s ≠ [] := by
  cases fuel with
  | zero => simp [pySplitFuel]
  | succ f =>
    rw [pySplitFuel]
    cases splitFirst sep s with
    | none => simp
    | some pr => obtain ⟨pre, post⟩ := pr; simp

/-- `str.split` never returns an empty list. -/
theorem pySplit_ne_nil (sep s : List Char) : pySplit sep s ≠ [] :=
  pySplitFuel_ne_nil sep s.length s

/-- Splitting the empty string yields one empty field. -/
theorem pySplit_empty (sep : List Char) : pySplit sep [] = [[]] := rfl

/-- The last cleaned field of the mapped list is the cleanup of the last
raw field (with `[]` as the out-of-range default on both sides). -/
theorem getLast?_getD_map_cleanupField (l : List (List Char)) :
    ((l.map cleanupField).getLast?).getD [] = cleanupField (l.getLast?.getD []) := by
  rw [List.getLast?_map]
  cases l.getLast? with
  | none => simp [cleanupField]
  | some x => simp

/-- Branch-level description of `clean_row`, with the `cols[-1]` accesses
pushed through the cleanup map. -/
theorem clean_row_eq (line sep : List Char) (n : Nat) :
    clean_row line sep n =
      if (pySplit sep (pyStrip line)).length ≠ n then
        CleanResult.malformed (pySplit sep (pyStrip line)).length
      else if cleanupField ((pySplit sep (pyStrip line)).getLast?.getD []) = [] then
        CleanResult.skip
      else
        CleanResult.ok
          (setLast ((pySplit sep (pyStrip line)).map cleanupField)
            (fixCoverage (cleanupField ((pySplit sep (pyStrip line)).getLast?.getD [])))) := by
  simp only [clean_row]
  rw [getLast?_getD_map_cleanupField]

/-- A character surviving the per-field cleanup was in the field and is
none of the three removed characters. -/
theorem mem_cleanupField {a : Char} {c : List Char} (h : a ∈ cleanupField c) :
    a ∈ c ∧ a ≠ '\"' ∧ a ≠ '*' ∧ a ≠ '\uFEFF' := by
  simp only [cleanupField, List.mem_filter, decide_eq_true_eq] at h
  tauto

/-- Cleanup is the identity on a field containing none of the three
removed characters. -/
theorem cleanupField_eq_self {c : List Char}
    (hq : '\"' ∉ c) (hs : '*' ∉ c) (hb : '\uFEFF' ∉ c) : cleanupField c = c := by
  unfold cleanupField
  have h1 : c.filter (fun ch => ch ≠ '\"') = c :=
    List.filter_eq_self.2 fun a ha => by
      simp only [ne_eq, decide_eq_true_eq]
      exact fun e => hq (e ▸ ha)
  rw [h1]
  have h2 : c.filter (fun ch => ch ≠ '*') = c :=
    List.filter_eq_self.2 fun a ha => by
      simp only [ne_eq, decide_eq_true_eq]
      exact fun e => hs (e ▸ ha)
  rw [h2]
  exact List.filter_eq_self.2 fun a ha => by
    simp only [ne_eq, decide_eq_true_eq]
    exact fun e => hb (e ▸ ha)

/-- The comma-to-period substitution leaves no comma behind. -/
theorem comma_not_mem_map_commaToDot (v : List Char) :
    ',' ∉ v.map commaToDot := by
  intro h
  obtain ⟨a, _, ha⟩ := List.mem_map.1 h
  by_cases h' : a = ',' <;> simp [commaToDot, h'] at ha

/-- Characters after the comma-to-period substitution: either an original
character or the period. -/
theorem mem_map_commaToDot {a : Char} {v : List Char}
    (h : a ∈ v.map commaToDot) : a ∈ v ∨ a = '.' := by
  obtain ⟨b, hb, rfl⟩ := List.mem_map.1 h
  unfold commaToDot
  by_cases h' : b = ','
  · simp [h']
  · simp only [if_neg h']
    exact Or.inl hb

/-- The comma-to-period substitution is the identity on a comma-free
string. -/
theorem map_commaToDot_eq_self {v : List Char} (h : ',' ∉ v) :
    v.map commaToDot = v := by
  induction v with
  | nil => rfl
  | cons a as ih =>
    simp only [List.mem_cons, not_or] at h
    have ha : a ≠ ',' := fun e => h.1 e.symm
    simp [commaToDot, ha, ih h.2]

/-- The coverage repair is the identity on a comma-free value. -/
theorem fixCoverage_eq_self {v : List Char} (h : ',' ∉ v) : fixCoverage v = v := by
  unfold fixCoverage
  have hl : ¬v.getLast? = some ',' := fun e => h (List.mem_of_getLast?_eq_some e)
  rw [if_neg hl, map_commaToDot_eq_self h]

/-- The coverage repair never empties a non-empty value. -/
theorem fixCoverage_ne_nil {v : List Char} (h : v ≠ []) : fixCoverage v ≠ [] := by
  unfold fixCoverage
  intro e
  rw [List.map_eq_nil_iff] at e
  split at e <;> simp_all

/-- Characters of the repaired coverage value: an original character, the
period, or the appended zero. -/
theorem mem_fixCoverage {a : Char} {v : List Char} (h : a ∈ fixCoverage v) :
    a ∈ v ∨ a = '.' ∨ a = '0' := by
  unfold fixCoverage at h
  rcases mem_map_commaToDot h with h' | h'
  · split at h'
    · rcases List.mem_append.1 h' with h2 | h2
      · exact Or.inl h2
      · simp only [List.mem_singleton] at h2
        exact Or.inr (Or.inr h2)
    · exact Or.inl h'
  · exact Or.inr (Or.inl h')

/-- Overwriting the last element preserves the length of a non-empty
list. -/
theorem setLast_length {l : List (List Char)} (v : List Char) (h : l ≠ []) :
    (setLast l v).length = l.length := by
  unfold setLast
  rw [List.length_append, List.length_dropLast]
  have : 0 < l.length := List.length_pos.2 h
  simp
  omega

/-- The last element after overwriting it. -/
theorem setLast_getLast? (l : List (List Char)) (v : List Char) :
    (setLast l v).getLast? = some v :=
  List.getLast?_concat _

/-- The other elements are untouched by overwriting the last one. -/
theorem dropLast_setLast (l : List (List Char)) (v : List Char) :
    (setLast l v).dropLast = l.dropLast :=
  List.dropLast_concat

/-- Membership in a list with its last element overwritten. -/
theorem mem_setLast {f v : List Char} {l : List (List Char)}
    (h : f ∈ setLast l v) : f ∈ l.dropLast ∨ f = v := by
  unfold setLast at h
  rcases List.mem_append.1 h with h' | h'
  · exact Or.inl h'
  · simp only [List.mem_singleton] at h'
    exact Or.inr h'

/-- Overwriting the last element of a non-empty list with its own last
element changes nothing. -/
theorem setLast_self {l : List (List Char)} (h : l ≠ []) :
    setLast l (l.getLast?.getD []) = l := by
  unfold setLast
  rw [List.getLast?_eq_getLast l h]
  exact List.dropLast_concat_getLast h

/-- `clean_row` raises exactly on a wrong column count, and the raised
error carries the observed count. -/
theorem clean_row_malformed_iff {line sep : List Char} {n k : Nat} :
    clean_row line sep n = CleanResult.malformed k ↔
      ((pySplit sep (pyStrip line)).length = k ∧ k ≠ n) := by
  rw [clean_row_eq]
  split_ifs with h1 h2
  · simp only [CleanResult.malformed.injEq]
    constructor
    · rintro rfl
      exact ⟨rfl, h1⟩
    · rintro ⟨rfl, _⟩
      rfl
  · constructor
    · intro e
      exact e.elim
    · rintro ⟨rfl, hk⟩
      rw [not_ne_iff] at h1
      exact absurd h1 hk
  · constructor
    · intro e
      exact e.elim
    · rintro ⟨rfl, hk⟩
      rw [not_ne_iff] at h1
      exact absurd h1 hk

/-- `clean_row` skips exactly when the column count is right and the
cleaned last field is empty. -/
theorem clean_row_skip_iff {line sep : List Char} {n : Nat} :
    clean_row line sep n = CleanResult.skip ↔
      ((pySplit sep (pyStrip line)).length = n ∧
        cleanupField ((pySplit sep (pyStrip line)).getLast?.getD []) = []) := by
  rw [clean_row_eq]
  split_ifs with h1 h2
  · constructor
    · intro e
      exact e.elim
    · rintro ⟨he, _⟩
      exact absurd he h1
  · rw [not_ne_iff] at h1
    simp [h1, h2]
  · rw [not_ne_iff] at h1
    constructor
    · intro e
      exact e.elim
    · rintro ⟨_, hc⟩
      exact absurd hc h2

/-- `clean_row` succeeds exactly when the column count is right and the
cleaned last field is non-empty, and then the result is the cleaned
fields with the repaired coverage value in last position. -/
theorem clean_row_ok_iff {line sep : List Char} {n : Nat} {cols : List (List Char)} :
    clean_row line sep n = CleanResult.ok cols ↔
      ((pySplit sep (pyStrip line)).length = n ∧
        cleanupField ((pySplit sep (pyStrip line)).getLast?.getD []) ≠ [] ∧
        cols = setLast ((pySplit sep (pyStrip line)).map cleanupField)
          (fixCoverage (cleanupField ((pySplit sep (pyStrip line)).getLast?.getD [])))) := by
  rw [clean_row_eq]
  split_ifs with h1 h2
  · constructor
    · intro e
      exact e.elim
    · rintro ⟨he, _⟩
      exact absurd he h1
  · rw [not_ne_iff] at h1
    constructor
    · intro e
      exact e.elim
    · rintro ⟨_, hc, _⟩
      exact absurd h2 hc
  · rw [not_ne_iff] at h1
    simp only [CleanResult.ok.injEq]
    constructor
    · intro e
      exact ⟨h1, h2, e.symm⟩
    · rintro ⟨_, _, rfl⟩
      rfl

/-- Every successful `clean_row` result has the expected number of
fields, no stray character in any field, and a non-empty comma-free
coverage field. -/
theorem clean_row_ok_fields {line sep : List Char} {n : Nat}
    {cols : List (List Char)} (h : clean_row line sep n = CleanResult.ok cols) :
    cols.length = n ∧
    (∀ f ∈ cols, '\"' ∉ f ∧ '*' ∉ f ∧ '\uFEFF' ∉ f) ∧
    ',' ∉ cols.getLast?.getD [] ∧ cols.getLast?.getD [] ≠ [] := by
  obtain ⟨hlen, hval, hcols⟩ := clean_row_ok_iff.1 h
  have hraw : pySplit sep (pyStrip line) ≠ [] := pySplit_ne_nil sep (pyStrip line)
  have hmapne : (pySplit sep (pyStrip line)).map cleanupField ≠ [] := by
    simpa using hraw
  refine ⟨?_, ?_, ?_, ?_⟩
  · rw [hcols, setLast_length _ hmapne, List.length_map]
    exact hlen
  · intro f hf
    rw [hcols] at hf
    rcases mem_setLast hf with hf' | rfl
    · have hm : f ∈ (pySplit sep (pyStrip line)).map cleanupField :=
        List.dropLast_subset _ hf'
      obtain ⟨g, _, rfl⟩ := List.mem_map.1 hm
      exact ⟨fun hq => (mem_cleanupField hq).2.1 rfl,
        fun hs => (mem_cleanupField hs).2.2.1 rfl,
        fun hb => (mem_cleanupField hb).2.2.2 rfl⟩
    · refine ⟨?_, ?_, ?_⟩ <;> intro hmem <;>
        rcases mem_fixCoverage hmem with h' | h' | h'
      · exact (mem_cleanupField h').2.1 rfl
      · exact absurd h' (by decide)
      · exact absurd h' (by decide)
      · exact (mem_cleanupField h').2.2.1 rfl
      · exact absurd h' (by decide)
      · exact absurd h' (by decide)
      · exact (mem_cleanupField h').2.2.2 rfl
      · exact absurd h' (by decide)
      · exact absurd h' (by decide)
  · rw [hcols, setLast_getLast?]
    simp only [Option.getD_some]
    unfold fixCoverage
    exact comma_not_mem_map_commaToDot _
  · rw [hcols, setLast_getLast?]
    simp only [Option.getD_some]
    exact fixCoverage_ne_nil hval

/-- A line of whitespace strips to the empty string. -/
theorem pyStrip_eq_nil {s : List Char} (h : ∀ c ∈ s, isPySpace c = true) :
    pyStrip s = [] := by
  unfold pyStrip
  rw [List.dropWhile_eq_nil_iff.2 h]
  simp

/-- Matching a single-character separator at the head of a string. -/
theorem dropSepHead_single (c a : Char) (rest : List Char) :
    dropSepHead [c] (a :: rest) = if a = c then some rest else none := by
  by_cases h : a = c <;> simp [dropSepHead, h]

/-- A single-character separator is not found in a string avoiding it. -/
theorem splitFirst_single_none {c : Char} {s : List Char} (h : c ∉ s) :
    splitFirst [c] s = none := by
  induction s with
  | nil => rfl
  | cons a rest ih =>
    simp only [List.mem_cons, not_or] at h
    rw [splitFirst, dropSepHead_single, if_neg (fun e => h.1 e.symm), ih h.2]

/-- Finding a single-character separator after a prefix avoiding it. -/
theorem splitFirst_single_app {c : Char} {x : List Char} (t : List Char)
    (h : c ∉ x) : splitFirst [c] (x ++ c :: t) = some (x, t) := by
  induction x with
  | nil => simp [splitFirst, dropSepHead]
  | cons a rest ih =>
    simp only [List.mem_cons, not_or] at h
    rw [List.cons_append, splitFirst, dropSepHead_single,
      if_neg (fun e => h.1 e.symm), ih h.2]

/-- Splitting the join of non-empty fields on a single-character
separator that occurs in no field recovers the fields, for any
sufficient fuel. -/
theorem pySplitFuel_joinSep {c : Char} (cols : List (List Char)) :
    ∀ fuel : Nat, cols ≠ [] → (∀ f ∈ cols, c ∉ f) →
      (joinSep [c] cols).length ≤ fuel →
      pySplitFuel [c] fuel (joinSep [c] cols) = cols := by
  induction cols with
  | nil => intro fuel h _ _; exact absurd rfl h
  | cons x rest ih =>
    intro fuel _ hf hlen
    cases rest with
    | nil =>
      have hx : c ∉ x := hf x (by simp)
      cases fuel with
      | zero => rfl
      | succ f =>
        show pySplitFuel [c] (f + 1) (joinSep [c] [x]) = [x]
        rw [pySplitFuel]
        have : joinSep [c] [x] = x := rfl
        rw [this, splitFirst_single_none hx]
    | cons y r =>
      have hx : c ∉ x := hf x (by simp)
      have hj : joinSep [c] (x :: y :: r) = x ++ c :: joinSep [c] (y :: r) := by
        show x ++ [c] ++ joinSep [c] (y :: r) = x ++ c :: joinSep [c] (y :: r)
        simp
      cases fuel with
      | zero =>
        exfalso
        rw [hj] at hlen
        simp at hlen
      | succ f =>
        rw [hj, pySplitFuel, splitFirst_single_app _ hx]
        have hfuel : (joinSep [c] (y :: r)).length ≤ f := by
          rw [hj] at hlen
          simp only [List.length_append, List.length_cons] at hlen
          omega
        show x :: pySplitFuel [c] f (joinSep [c] (y :: r)) = x :: y :: r
        rw [ih f (by simp) (fun g hg => hf g (List.mem_cons_of_mem _ hg)) hfuel]

/-- Splitting the join on a single-character separator occurring in no
field recovers the fields. -/
theorem pySplit_joinSep {c : Char} {cols : List (List Char)}
    (h1 : cols ≠ []) (h2 : ∀ f ∈ cols, c ∉ f) :
    pySplit [c] (joinSep [c] cols) = cols :=
  pySplitFuel_joinSep cols _ h1 h2 le_rfl

/-! ## Lemmas about the pipeline driver -/

/-- Processing a concatenation of line blocks processes each block,
with the second block's indices offset by the first block's length;
output lines and diagnostics are concatenated in order. -/
theorem pipelineAux_append (cn : List (List Char)) (sep : List Char)
    (ex : Nat) (xs ys : List (List Char)) : ∀ m : Nat,
    pipelineAux cn sep ex m (xs ++ ys) =
      ((pipelineAux cn sep ex m xs).1 ++
        (pipelineAux cn sep ex (m + xs.length) ys).1,
       (pipelineAux cn sep ex m xs).2 ++
        (pipelineAux cn sep ex (m + xs.length) ys).2) := by
  induction xs with
  | nil => intro m; simp [pipelineAux]
  | cons x rest ih =>
    intro m
    rw [List.cons_append, pipelineAux, pipelineAux]
    have harith : m + 1 + rest.length = m + (rest.length + 1) := by omega
    by_cases hm : m = 0
    · simp only [hm, if_pos rfl]
      rw [ih]
      simp [harith, hm, Nat.add_comm]
    · simp only [if_neg hm]
      rw [ih]
      cases clean_row x sep ex with
      | malformed k => simp [harith]
      | skip => simp [harith]
      | ok cols => simp [harith]

/-- From any positive start index (i.e. past the header), the output
lines of the loop are exactly the successful rows in order, skipped and
malformed rows absent. -/
theorem pipelineAux_pos_fst (cn : List (List Char)) (sep : List Char)
    (ex : Nat) (ls : List (List Char)) : ∀ m : Nat, 0 < m →
    (pipelineAux cn sep ex m ls).1 = ls.filterMap (rowOutput sep ex) := by
  induction ls with
  | nil => intro m _; rfl
  | cons x rest ih =>
    intro m hm
    rw [pipelineAux, if_neg (Nat.pos_iff_ne_zero.1 hm)]
    rw [List.filterMap_cons]
    unfold rowOutput
    cases clean_row x sep ex with
    | malformed k => simpa using ih (m + 1) (by omega)
    | skip => simpa using ih (m + 1) (by omega)
    | ok cols => simpa using ih (m + 1) (by omega)

/-- A whitespace character is none of the three removed characters. -/
theorem isPySpace_not_removed {c : Char} (h : isPySpace c = true) :
    c ≠ '\"' ∧ c ≠ '*' ∧ c ≠ '\uFEFF' := by
  simp only [isPySpace, Bool.or_eq_true, decide_eq_true_eq] at h
  rcases h with ((((h | h) | h) | h) | h) | h <;> subst h <;>
    exact ⟨by decide, by decide, by decide⟩

/-- Cleanup distributes over concatenation. -/
theorem cleanupField_append (a b : List Char) :
    cleanupField (a ++ b) = cleanupField a ++ cleanupField b := by
  simp [cleanupField, List.filter_append]

/-- Cleanup is the identity on whitespace. -/
theorem cleanupField_of_space {ws : List Char}
    (h : ∀ c ∈ ws, isPySpace c = true) : cleanupField ws = ws :=
  cleanupField_eq_self
    (fun hm => (isPySpace_not_removed (h _ hm)).1 rfl)
    (fun hm => (isPySpace_not_removed (h _ hm)).2.1 rfl)
    (fun hm => (isPySpace_not_removed (h _ hm)).2.2 rfl)

/-! ## The claims -/

/-- C1: for every input line that, after trimming, splits on the
(non-empty) separator into exactly 4 fields and whose last (coverage)
field is non-empty after character cleanup, `clean_row` returns a list of
exactly 4 fields in which no field contains `"`, `*`, or the
byte-order-mark character, and the coverage field contains no comma and
is not the empty string. -/
theorem C1_clean_rows_are_clean (line sep : List Char) (_hsep : sep ≠ [])
    (h4 : (pySplit sep (pyStrip line)).length = 4)
    (hcov : cleanupField ((pySplit sep (pyStrip line)).getLast?.getD []) ≠ []) :
    ∃ cols : List (List Char), clean_row line sep 4 = CleanResult.ok cols ∧
      cols.length = 4 ∧
      (∀ f ∈ cols, '\"' ∉ f ∧ '*' ∉ f ∧ '\uFEFF' ∉ f) ∧
      ',' ∉ cols.getLast?.getD [] ∧ cols.getLast?.getD [] ≠ [] := by
  have hok : clean_row line sep 4 = CleanResult.ok
      (setLast ((pySplit sep (pyStrip line)).map cleanupField)
        (fixCoverage (cleanupField ((pySplit sep (pyStrip line)).getLast?.getD [])))) :=
    clean_row_ok_iff.2 ⟨h4, hcov, rfl⟩
  exact ⟨_, hok, clean_row_ok_fields hok⟩

/-- Witness for C1 on the line `Pfizer;EU;2021;3,4`. -/
theorem C1_clean_rows_are_clean_witness :
    ∃ cols : List (List Char),
      clean_row "Pfizer;EU;2021;3,4".toList ";".toList 4 = CleanResult.ok cols ∧
      cols.length = 4 ∧
      (∀ f ∈ cols, '\"' ∉ f ∧ '*' ∉ f ∧ '\uFEFF' ∉ f) ∧
      ',' ∉ cols.getLast?.getD [] ∧ cols.getLast?.getD [] ≠ [] :=
  C1_clean_rows_are_clean "Pfizer;EU;2021;3,4".toList ";".toList
    (by decide) (by decide) (by decide)

/-- C2: a line fails with the malformed-row error carrying count `k`
exactly when its trimmed split has `k` fields and `k` differs from the
expected column count; in particular `clean_row` fails in no other
case. -/
theorem C2_malformed_iff_wrong_count (line sep : List Char) (n k : Nat)
    (_hsep : sep ≠ []) :
    clean_row line sep n = CleanResult.malformed k ↔
      ((pySplit sep (pyStrip line)).length = k ∧ k ≠ n) :=
  clean_row_malformed_iff

/-- Witness for C2 on the line `Bad;Row;OnlyThree`. -/
theorem C2_malformed_iff_wrong_count_witness :
    clean_row "Bad;Row;OnlyThree".toList ";".toList 4 =
        CleanResult.malformed 3 ↔
      ((pySplit ";".toList (pyStrip "Bad;Row;OnlyThree".toList)).length = 3 ∧
        3 ≠ 4) :=
  C2_malformed_iff_wrong_count "Bad;Row;OnlyThree".toList ";".toList 4 3
    (by decide)

/-- C3: on a line whose split has exactly the expected number of fields,
`clean_row` returns the skip outcome if and only if the last (coverage)
field is empty after removal of `"`, `*` and the byte-order-mark;
emptiness of any other field is irrelevant. -/
theorem C3_skip_iff_empty_coverage (line sep : List Char) (n : Nat)
    (_hsep : sep ≠ [])
    (hn : (pySplit sep (pyStrip line)).length = n) :
    clean_row line sep n = CleanResult.skip ↔
      cleanupField ((pySplit sep (pyStrip line)).getLast?.getD []) = [] := by
  rw [clean_row_skip_iff]
  simp [hn]

/-- Witness for C3 on the line `Moderna;EU;2021;`. -/
theorem C3_skip_iff_empty_coverage_witness :
    clean_row "Moderna;EU;2021;".toList ";".toList 4 = CleanResult.skip ↔
      cleanupField
        ((pySplit ";".toList (pyStrip "Moderna;EU;2021;".toList)).getLast?.getD [])
        = [] :=
  C3_skip_iff_empty_coverage "Moderna;EU;2021;".toList ";".toList 4
    (by decide) (by decide)

/-- C4: the pipeline on the four scenario lines with separator `;` and
expected column count 4 outputs exactly the header and the cleaned
Pfizer row, reports line index 2 as malformed with observed column count
3, and silently skips line index 3. -/
theorem C4_end_to_end_scenario :
    runPipeline COLUMN_NAMES SEPARATOR EXPECTED_COLUMNS
        ["h1;h2;h3;h4".toList, "Pfizer;EU;2021;3,4".toList,
          "Bad;Row;OnlyThree".toList, "Moderna;EU;2021;".toList] =
      (["vaccine;region;year;coverage".toList, "Pfizer;EU;2021;3.4".toList],
        [(2, 3)]) := by
  decide

/-- C5: in a successful `clean_row` result the coverage field is the
cleaned raw coverage with a `0` appended when it ended with a comma and
every comma then replaced by a period (so `12,` yields `12.0` and `3,4`
yields `3.4`), while the fields other than the last receive only the
character cleanup and neither comma transformation. -/
theorem C5_coverage_repair :
    (clean_row "a;b;c;12,".toList ";".toList 4 =
      CleanResult.ok ["a".toList, "b".toList, "c".toList, "12.0".toList]) ∧
    (clean_row "a;b;c;3,4".toList ";".toList 4 =
      CleanResult.ok ["a".toList, "b".toList, "c".toList, "3.4".toList]) ∧
    ∀ (line sep : List Char) (n : Nat) (cols : List (List Char)),
      clean_row line sep n = CleanResult.ok cols →
      cols.getLast?.getD [] =
        fixCoverage (cleanupField ((pySplit sep (pyStrip line)).getLast?.getD [])) ∧
      cols.dropLast = ((pySplit sep (pyStrip line)).map cleanupField).dropLast := by
  refine ⟨by decide, by decide, ?_⟩
  intro line sep n cols h
  obtain ⟨-, -, hcols⟩ := clean_row_ok_iff.1 h
  subst hcols
  constructor
  · rw [setLast_getLast?]
    rfl
  · exact dropLast_setLast _ _

/-- Witness for C5 on the line `a;b;c;12,`. -/
theorem C5_coverage_repair_witness :
    ["a".toList, "b".toList, "c".toList, "12.0".toList].getLast?.getD [] =
      fixCoverage (cleanupField
        ((pySplit ";".toList (pyStrip "a;b;c;12,".toList)).getLast?.getD [])) ∧
    ["a".toList, "b".toList, "c".toList, "12.0".toList].dropLast =
      ((pySplit ";".toList (pyStrip "a;b;c;12,".toList)).map cleanupField).dropLast :=
  C5_coverage_repair.2.2 "a;b;c;12,".toList ";".toList 4
    ["a".toList, "b".toList, "c".toList, "12.0".toList] (by decide)

/-- C9: a data line that is empty or all whitespace trims to the empty
string, whose split is one empty field, so `clean_row` (with an expected
column count other than 1) reports it as malformed with observed column
count 1 instead of skipping it. -/
theorem C9_blank_lines_malformed (line sep : List Char) (n : Nat)
    (_hsep : sep ≠ []) (hblank : ∀ c ∈ line, isPySpace c = true)
    (hn : n ≠ 1) :
    clean_row line sep n = CleanResult.malformed 1 := by
  rw [clean_row_malformed_iff, pyStrip_eq_nil hblank, pySplit_empty]
  exact ⟨rfl, fun e => hn e.symm⟩

/-- Witness for C9 on a line of two spaces. -/
theorem C9_blank_lines_malformed_witness :
    clean_row "  ".toList ";".toList 4 = CleanResult.malformed 1 :=
  C9_blank_lines_malformed "  ".toList ";".toList 4 (by decide) (by decide)
    (by decide)

/-- C6 counterexample: on the line `" a;b;c;1` the removed quote exposes
a leading space in the first cleaned field, so re-cleaning the re-joined
output strips that space and returns a different field list —
`clean_row` is not idempotent. -/
theorem C6_not_idempotent_cex :
    clean_row "\" a;b;c;1".toList ";".toList 4 =
      CleanResult.ok [" a".toList, "b".toList, "c".toList, "1".toList] ∧
    clean_row
        (joinSep ";".toList [" a".toList, "b".toList, "c".toList, "1".toList])
        ";".toList 4 ≠
      CleanResult.ok [" a".toList, "b".toList, "c".toList, "1".toList] := by
  constructor
  · decide
  · decide

/-- C6 (amended): `clean_row` is idempotent on its successful output
provided the separator is a single character occurring in no cleaned
field and the re-joined output carries no leading or trailing
whitespace: re-cleaning the re-joined fields succeeds with the identical
field list. -/
theorem C6_idempotent_amended (line : List Char) (c : Char) (n : Nat)
    (cols : List (List Char))
    (hok : clean_row line [c] n = CleanResult.ok cols)
    (hsep : ∀ f ∈ cols, c ∉ f)
    (hstrip : pyStrip (joinSep [c] cols) = joinSep [c] cols) :
    clean_row (joinSep [c] cols) [c] n = CleanResult.ok cols := by
  obtain ⟨hlen, hfields, hcomma, hne⟩ := clean_row_ok_fields hok
  obtain ⟨hlen_raw, -, -⟩ := clean_row_ok_iff.1 hok
  have hraw_ne := pySplit_ne_nil [c] (pyStrip line)
  have hcols_ne : cols ≠ [] := by
    intro e
    apply hraw_ne
    apply List.length_eq_zero.1
    rw [hlen_raw, ← hlen, e]
    rfl
  have hvmem : cols.getLast?.getD [] ∈ cols := by
    rw [List.getLast?_eq_getLast cols hcols_ne]
    exact List.getLast_mem hcols_ne
  have hclean_v : cleanupField (cols.getLast?.getD []) = cols.getLast?.getD [] := by
    obtain ⟨hq, hs, hb⟩ := hfields _ hvmem
    exact cleanupField_eq_self hq hs hb
  have hmap : cols.map cleanupField = cols := by
    have h' : ∀ a ∈ cols, cleanupField a = id a := fun a ha => by
      obtain ⟨hq, hs, hb⟩ := hfields a ha
      simpa using cleanupField_eq_self hq hs hb
    rw [List.map_congr_left h', List.map_id]
  apply clean_row_ok_iff.2
  rw [hstrip, pySplit_joinSep hcols_ne hsep]
  refine ⟨hlen, ?_, ?_⟩
  · rw [hclean_v]
    exact hne
  · rw [hmap, hclean_v, fixCoverage_eq_self hcomma]
    exact (setLast_self hcols_ne).symm

/-- Witness for the amended C6 on the cleaned Pfizer row. -/
theorem C6_idempotent_amended_witness :
    clean_row
        (joinSep [';'] ["Pfizer".toList, "EU".toList, "2021".toList, "3.4".toList])
        [';'] 4 =
      CleanResult.ok ["Pfizer".toList, "EU".toList, "2021".toList, "3.4".toList] :=
  C6_idempotent_amended "Pfizer;EU;2021;3,4".toList ';' 4
    ["Pfizer".toList, "EU".toList, "2021".toList, "3.4".toList]
    (by decide) (by decide) (by decide)

/-- C7: for a malformed data row (at any index past the header), the
driver does not fail: it records the diagnostic pair of that row's line
index (0-based over all file lines with the header at index 0, which is
exactly the number the script prints) and the observed column count,
drops the row from the output lines, and processes all later lines
exactly as it otherwise would. -/
theorem C7_malformed_row_diagnostics (cn : List (List Char)) (sep : List Char)
    (ex : Nat) (pre post : List (List Char)) (bad : List Char)
    (hpre : pre ≠ [])
    (hbad : (pySplit sep (pyStrip bad)).length ≠ ex) :
    runPipeline cn sep ex (pre ++ bad :: post) =
      ((pipelineAux cn sep ex 0 pre).1 ++
        (pipelineAux cn sep ex (pre.length + 1) post).1,
       (pipelineAux cn sep ex 0 pre).2 ++
        (pre.length, (pySplit sep (pyStrip bad)).length) ::
          (pipelineAux cn sep ex (pre.length + 1) post).2) := by
  unfold runPipeline
  rw [pipelineAux_append]
  have hm : (0 : Nat) + pre.length = pre.length := by omega
  rw [hm]
  have hMal : clean_row bad sep ex =
      CleanResult.malformed (pySplit sep (pyStrip bad)).length :=
    clean_row_malformed_iff.2 ⟨rfl, hbad⟩
  have hne : pre.length ≠ 0 := fun e => hpre (List.length_eq_zero.1 e)
  rw [pipelineAux, if_neg hne, hMal]

/-- Witness for C7 on the scenario input with `Bad;Row;OnlyThree` at
index 1 of a one-line prefix. -/
theorem C7_malformed_row_diagnostics_witness :
    runPipeline COLUMN_NAMES SEPARATOR 4
        (["h1;h2;h3;h4".toList] ++
          "Bad;Row;OnlyThree".toList :: ["Moderna;EU;2021;".toList]) =
      ((pipelineAux COLUMN_NAMES SEPARATOR 4 0 ["h1;h2;h3;h4".toList]).1 ++
        (pipelineAux COLUMN_NAMES SEPARATOR 4
          (["h1;h2;h3;h4".toList].length + 1) ["Moderna;EU;2021;".toList]).1,
       (pipelineAux COLUMN_NAMES SEPARATOR 4 0 ["h1;h2;h3;h4".toList]).2 ++
        (["h1;h2;h3;h4".toList].length,
          (pySplit SEPARATOR (pyStrip "Bad;Row;OnlyThree".toList)).length) ::
          (pipelineAux COLUMN_NAMES SEPARATOR 4
            (["h1;h2;h3;h4".toList].length + 1) ["Moderna;EU;2021;".toList]).2) :=
  C7_malformed_row_diagnostics COLUMN_NAMES SEPARATOR 4
    ["h1;h2;h3;h4".toList] ["Moderna;EU;2021;".toList]
    "Bad;Row;OnlyThree".toList (by decide) (by decide)

/-- C8 counterexample: on the empty input the driver writes an empty
document, with no header line, so the output is not the header followed
by the (zero) cleaned data rows. -/
theorem C8_empty_input_no_header :
    outputDocument COLUMN_NAMES SEPARATOR EXPECTED_COLUMNS [] = [] ∧
    outputDocument COLUMN_NAMES SEPARATOR EXPECTED_COLUMNS [] ≠
      "vaccine;region;year;coverage\n".toList := by
  exact ⟨rfl, by decide⟩

/-- C8 (amended): for every input with at least one line, the output
document is exactly the fixed header line (the column names joined by
the separator, substituted for input line 0, which is never passed to
the cleaner) followed by the cleaned data rows in their original
relative order, skipped and malformed rows absent, each line terminated
by a single newline; with the script's configuration the header line is
the literal `vaccine;region;year;coverage`. -/
theorem C8_document_structure :
    joinSep SEPARATOR COLUMN_NAMES = "vaccine;region;year;coverage".toList ∧
    ∀ (cn : List (List Char)) (sep : List Char) (ex : Nat)
      (l0 : List Char) (rest : List (List Char)),
      outputDocument cn sep ex (l0 :: rest) =
        (joinSep sep cn ++ ['\n']) ++
          ((rest.filterMap (rowOutput sep ex)).map (fun l => l ++ ['\n'])).flatten := by
  refine ⟨by decide, ?_⟩
  intro cn sep ex l0 rest
  unfold outputDocument runPipeline
  rw [pipelineAux, if_pos rfl]
  have h1 : (0 : Nat) + 1 = 1 := rfl
  rw [h1, pipelineAux_pos_fst cn sep ex rest 1 (by omega)]
  simp

/-- C10: `clean_row` trims whitespace only at the two ends of the whole
raw line, never inside fields: the line `a; b ;c;1,0` cleans to the
fields `a`, ` b `, `c`, `1.0`, and in general every interior field of a
successful result is the raw split field with only `"`, `*` and the
byte-order-mark removed, so its leading and trailing whitespace is
preserved unchanged. -/
theorem C10_interior_whitespace_preserved :
    (clean_row "a; b ;c;1,0".toList ";".toList 4 =
      CleanResult.ok ["a".toList, " b ".toList, "c".toList, "1.0".toList]) ∧
    ∀ (line sep : List Char) (n : Nat) (cols : List (List Char))
      (i : Nat) (w1 mid w2 : List Char),
      clean_row line sep n = CleanResult.ok cols →
      i + 1 < cols.length →
      (pySplit sep (pyStrip line))[i]? = some (w1 ++ mid ++ w2) →
      (∀ c ∈ w1, isPySpace c = true) →
      (∀ c ∈ w2, isPySpace c = true) →
      cols[i]? = some (w1 ++ cleanupField mid ++ w2) := by
  refine ⟨by decide, ?_⟩
  intro line sep n cols i w1 mid w2 hok hi hraw hw1 hw2
  obtain ⟨-, -, hcols⟩ := clean_row_ok_iff.1 hok
  subst hcols
  have hMne : (pySplit sep (pyStrip line)).map cleanupField ≠ [] := by
    simpa using pySplit_ne_nil sep (pyStrip line)
  rw [setLast_length _ hMne, List.length_map] at hi
  have hlt : i <
      (((pySplit sep (pyStrip line)).map cleanupField).dropLast).length := by
    rw [List.length_dropLast, List.length_map]
    omega
  unfold setLast
  rw [List.getElem?_append_left hlt, List.getElem?_dropLast,
    if_pos (by rw [List.length_map]; omega), List.getElem?_map, hraw]
  show some (cleanupField (w1 ++ mid ++ w2)) = _
  rw [cleanupField_append, cleanupField_append, cleanupField_of_space hw1,
    cleanupField_of_space hw2]

/-- Witness for C10: the interior field ` b ` of the example line keeps
its surrounding spaces. -/
theorem C10_interior_whitespace_preserved_witness :
    (["a".toList, " b ".toList, "c".toList, "1.0".toList] :
        List (List Char))[1]? =
      some ([' '] ++ cleanupField ['b'] ++ [' ']) :=
  C10_interior_whitespace_preserved.2 "a; b ;c;1,0".toList ";".toList 4
    ["a".toList, " b ".toList, "c".toList, "1.0".toList] 1 [' '] ['b'] [' ']
    (by decide) (by decide) (by decide) (by decide) (by decide)

end Vaxdata
